import Mathlib

/-!
The program inotify-daemon (`src/main.c`): `handle_events` and `main`.

A shallow embedding of the two functions of `src/main.c`, and the properties
of them that are proved or refuted.

Modelling conventions.

* A C string is modelled by its content, the list of the characters that
  precede its terminating NUL.  `eventMessage` is an array of 4096 bytes
  (`EVENT_MESSAGE_SIZE`): `strcat` into it yields the appended content when
  that content and its NUL fit the array, and the fault `overrun` when the C
  program would write past the array, where its behaviour is undefined.
* `buf` is the list of the bytes of the array and a pointer into it is an
  offset.  Reading a header or a name that does not lie inside the list, or
  an entry that the tables `wd` and `argv` do not have, is the fault
  `overread`; there too the behaviour of the C program is undefined.
* `eventMessage` and `buf` are uninitialised automatic arrays: their contents
  when `handle_events` is entered are parameters of the model.
* `struct inotify_event` has the Linux layout: `int wd`, `uint32_t mask`,
  `uint32_t cookie`, `uint32_t len` (16 bytes, little endian), then `name`.
* The operating system is an explicit parameter: the queue of the results of
  the coming calls of `read`, and the results of `inotify_init1`, `calloc`,
  `inotify_add_watch` and `poll`.  `main` is modelled from line 102 on, after
  the call `daemon(0,0)`.
* The decode loop runs on fuel, and the fault `outOfFuel` means that the fuel
  ran out.  `handle_events` supplies `len` units; `eventLoop_never_outOfFuel`
  shows that `ceil(len / 16)` are enough.
-/

namespace InotifyDaemon

/-! ## Constants of `<sys/inotify.h>`, `<errno.h>` and `<stdlib.h>` (Linux) -/

/-- File opened for writing was closed. -/
def IN_CLOSE_WRITE : Nat := 0x00000008

/-- File not opened for writing was closed. -/
def IN_CLOSE_NOWRITE : Nat := 0x00000010

/-- File was opened. -/
def IN_OPEN : Nat := 0x00000020

/-- Subject of the event is a directory. -/
def IN_ISDIR : Nat := 0x40000000

/-- Value of `POLLIN` in `<poll.h>`. -/
def POLLIN : Nat := 0x0001

/-- Value of `sizeof(struct inotify_event)`: four 32-bit fields. -/
def EVENT_SIZE : Nat := 16

/-- Value of `sizeof(eventMessage)` in `handle_events`. -/
def EVENT_MESSAGE_SIZE : Nat := 4096

def EAGAIN : Nat := 11

def EINTR : Nat := 4

def EXIT_FAILURE : Nat := 1

/-! ## Faults -/

/-- Why a run of the model yields no result. -/
inductive Fault where
  /-- The fuel of the model ran out. -/
  | outOfFuel
  /-- A `strcat` writes past the end of `eventMessage`: undefined behaviour. -/
  | overrun
  /-- A read past the end of `buf`, of `wd` or of `argv`: undefined behaviour. -/
  | overread
deriving DecidableEq, Repr

/-- The result of a run: a value, or a fault. -/
inductive Result (α : Type) where
  | ok (value : α)
  | fault (f : Fault)
deriving DecidableEq, Repr

/-- Sequencing: the second step runs on the value of the first, a fault ends the run. -/
def Result.bind {α β : Type} (r : Result α) (k : α → Result β) : Result β :=
  match r with
  | Result.ok a => k a
  | Result.fault f => Result.fault f

/-! ## Strings and memory -/

/-- The terminator of a C string. -/
def NUL : Char := Char.ofNat 0

/-- The characters of `mem` before the first NUL. -/
def cstr (mem : List Char) : List Char :=
  mem.takeWhile (fun c => c != NUL)

/-- The C string at the head of `mem`, when a NUL ends it inside `mem`. -/
def cstrAt (mem : List Char) : Option (List Char) :=
  if NUL ∈ mem then some (cstr mem) else none

/-- A message fits `eventMessage` when it and its terminator take at most 4096 bytes. -/
def fitsEventMessage (msg : List Char) : Prop :=
  msg.length < EVENT_MESSAGE_SIZE

instance (msg : List Char) : Decidable (fitsEventMessage msg) :=
  inferInstanceAs (Decidable (msg.length < EVENT_MESSAGE_SIZE))

/-- The call `strcat(eventMessage, src)`, `dest` being the content of
`eventMessage`: the appended content when it fits the array. -/
def strcat (dest src : List Char) : Result (List Char) :=
  if fitsEventMessage (dest ++ src) then Result.ok (dest ++ src)
  else Result.fault Fault.overrun

/-- The byte at offset `i` of `mem`. -/
def byteAt (mem : List Char) (i : Nat) : Nat :=
  (mem.getD i NUL).toNat % 256

/-- The little-endian `uint32_t` at offset `off` of `mem`. -/
def rd32 (mem : List Char) (off : Nat) : Nat :=
  byteAt mem off + 256 * byteAt mem (off + 1) + 65536 * byteAt mem (off + 2)
    + 16777216 * byteAt mem (off + 3)

/-- The `int` with the two's complement bit pattern `n`. -/
def toInt32 (n : Nat) : Int :=
  if n < 2147483648 then (n : Int) else (n : Int) - 4294967296

/-! ## `handle_events` -/

/-- What the body of the decode loop reads through `event`: the header fields
and the C string at `event->name`, which is `none` when no NUL ends it inside
`buf`. -/
structure Event where
  wd : Int
  mask : Nat
  cookie : Nat
  len : Nat
  name : Option (List Char)
deriving DecidableEq, Repr

/-- The cast `event = (const struct inotify_event *) ptr`, with `ptr = buf + off`;
`none` when the 16 bytes of the header do not lie inside `buf`. -/
def eventAt (buf : List Char) (off : Nat) : Option Event :=
  let mem := buf.drop off
  if EVENT_SIZE ≤ mem.length then
    some { wd := toInt32 (rd32 mem 0)
           mask := rd32 mem 4
           cookie := rd32 mem 8
           len := rd32 mem 12
           name := cstrAt (mem.drop EVENT_SIZE) }
  else none

/-- Lines 59-64, "Print event type": the three tests of the mask. -/
def printEventType (mask : Nat) (eventMessage : List Char) : Result (List Char) :=
  (if mask &&& IN_OPEN ≠ 0 then strcat eventMessage "IN_OPEN: ".toList
   else Result.ok eventMessage).bind fun m1 =>
  (if mask &&& IN_CLOSE_NOWRITE ≠ 0 then strcat m1 "IN_CLOSE_WRITE: ".toList
   else Result.ok m1).bind fun m2 =>
  if mask &&& IN_CLOSE_WRITE ≠ 0 then strcat m2 "IN_CLOSE_WRITE: ".toList else Result.ok m2

/-- Lines 68-74, "Print the name of the watched directory": the loop
`for (i = ...; i < argc; ++i)` with `n` iterations left, entered at index `i`;
`handle_events` enters it with `i = 1` and `n = argc - 1`.  Reading an entry
that `wd` or `argv` does not have is the fault `overread`. -/
def printWatchedDir (wd : List Int) (argv : List (List Char)) (eventWd : Int) :
    Nat → Nat → List Char → Result (List Char)
  | 0, _, eventMessage => Result.ok eventMessage
  | n + 1, i, eventMessage =>
    match wd[i]? with
    | none => Result.fault Fault.overread
    | some w =>
      if w = eventWd then
        match argv[i]? with
        | none => Result.fault Fault.overread
        | some dir => (strcat eventMessage dir).bind fun m1 => strcat m1 "/".toList
      else
        printWatchedDir wd argv eventWd n (i + 1) eventMessage

/-- Lines 78-79, "Print the name of the file". -/
def printName (event : Event) (eventMessage : List Char) : Result (List Char) :=
  if event.len ≠ 0 then
    match event.name with
    | some name => strcat eventMessage name
    | none => Result.fault Fault.overread
  else Result.ok eventMessage

/-- Lines 55-87: the body of the decode loop; the result is the content of
`eventMessage` that is passed to `syslog`. -/
def handleEvent (wd : List Int) (argc : Nat) (argv : List (List Char))
    (event : Event) (eventMessage : List Char) : Result (List Char) :=
  (printEventType event.mask eventMessage).bind fun m1 =>
  (printWatchedDir wd argv event.wd (argc - 1) 1 m1).bind fun m2 =>
  (printName event m2).bind fun m3 =>
  if event.mask &&& IN_ISDIR ≠ 0 then strcat m3 " [directory]\n".toList
  else strcat m3 " [file]\n".toList

/-- Lines 52-88: the decode loop from offset `off`, with `fuel` iterations
allowed.  The result is the list of the messages passed to `syslog`, in call
order, and the final content of `eventMessage`. -/
def eventLoop (wd : List Int) (argc : Nat) (argv : List (List Char))
    (buf : List Char) (len : Nat) :
    Nat → Nat → List Char → Result (List (List Char) × List Char)
  | 0, off, eventMessage =>
    if off < len then Result.fault Fault.outOfFuel else Result.ok ([], eventMessage)
  | fuel + 1, off, eventMessage =>
    if off < len then
      match eventAt buf off with
      | none => Result.fault Fault.overread
      | some event =>
        (handleEvent wd argc argv event eventMessage).bind fun msg =>
        (eventLoop wd argc argv buf len fuel (off + (EVENT_SIZE + event.len)) msg).bind
          fun rest => Result.ok (msg :: rest.1, rest.2)
    else Result.ok ([], eventMessage)

/-- The result of one `read(fd, buf, sizeof(buf))`: the bytes stored at the
start of `buf` (their number is the return value), or `-1` with an `errno`. -/
inductive ReadResult where
  | data (bytes : List Char)
  | fail (errno : Nat)
deriving DecidableEq, Repr

/-- How a call of `handle_events` ends. -/
inductive Outcome where
  | returned
  | exited (status : Nat)
deriving DecidableEq, Repr

/-- What a call of `handle_events` did. -/
structure Drain where
  /-- The messages passed to `syslog`, in call order. -/
  reports : List (List Char)
  outcome : Outcome
  /-- Number of calls of `read`. -/
  reads : Nat
  /-- The results of the `read` calls that were not made. -/
  pending : List ReadResult
deriving DecidableEq, Repr

/-- The function `handle_events(fd, wd, argc, argv)`.  `channel` is the queue
of results of the coming reads; a read on the empty queue finds nothing and
fails with `EAGAIN` (the descriptor is non-blocking).  `buf` and
`eventMessage` are the contents of the two local arrays. -/
def handle_events (wd : List Int) (argc : Nat) (argv : List (List Char)) :
    List ReadResult → List Char → List Char → Result Drain
  | [], _, _ =>
    Result.ok { reports := [], outcome := Outcome.returned, reads := 1, pending := [] }
  | ReadResult.fail errno :: rest, _, _ =>
    if errno ≠ EAGAIN then
      Result.ok { reports := [], outcome := Outcome.exited EXIT_FAILURE, reads := 1,
                  pending := rest }
    else
      Result.ok { reports := [], outcome := Outcome.returned, reads := 1, pending := rest }
  | ReadResult.data bytes :: rest, buf, eventMessage =>
    let len := bytes.length
    if len ≤ 0 then
      Result.ok { reports := [], outcome := Outcome.returned, reads := 1, pending := rest }
    else
      let buf1 := bytes ++ buf.drop len
      (eventLoop wd argc argv buf1 len len 0 eventMessage).bind fun batch =>
      (handle_events wd argc argv rest buf1 batch.2).bind fun d =>
      Result.ok { d with reports := batch.1 ++ d.reports, reads := d.reads + 1 }

/-! ## `main` -/

/-- The results of the library calls that the start-up of `main` makes. -/
structure OS where
  /-- Result of `inotify_init1(IN_NONBLOCK)`: the descriptor, or `-1`. -/
  inotify_init1 : Int
  /-- Whether `calloc(argc, sizeof(int))` returns memory. -/
  calloc : Bool
  /-- Result of `inotify_add_watch(fd, path, mask)`: the watch descriptor, or `-1`. -/
  inotify_add_watch : Int → List Char → Nat → Int

/-- The calls of `main` that reach outside the process, as they are logged. -/
inductive Call where
  /-- The usage message: `printf` and `syslog(LOG_ERR, ...)`. -/
  | usage
  | inotify_init1
  | perror (what : String)
  | calloc (nmemb : Nat)
  | inotify_add_watch (fd : Int) (path : List Char) (mask : Nat)
  /-- The message `Cannot watch ...` on `stderr`. -/
  | cannotWatch (path : List Char)
  /-- The message `Listening for events.` -/
  | listening
  | poll
  /-- The call `system("touch ...")`. -/
  | system
  /-- A call of `handle_events`, with the messages it passed to `syslog`. -/
  | handle_events (reports : List (List Char))
deriving DecidableEq, Repr

/-- How lines 102-146 of `main` end: with `exit`, or in front of the dispatch
loop with the descriptor and the table of watch descriptors. -/
inductive Startup where
  | exited (status : Nat) (log : List Call)
  | listening (fd : Int) (wd : List Int) (log : List Call)
deriving DecidableEq, Repr

/-- Lines 102-146 of `main`; `argc` is the length of `argv`. -/
def startup (os : OS) (argv : List (List Char)) : Startup :=
  let argc := argv.length
  if argc < 2 then
    Startup.exited EXIT_FAILURE [Call.usage]
  else
    let fd := os.inotify_init1
    if fd = -1 then
      Startup.exited EXIT_FAILURE [Call.inotify_init1, Call.perror "inotify_init1"]
    else if os.calloc = false then
      Startup.exited EXIT_FAILURE [Call.inotify_init1, Call.calloc argc, Call.perror "calloc"]
    else
      let path := argv.getD 1 []
      let wd := (List.replicate argc (0 : Int)).set 1 (os.inotify_add_watch fd path IN_CLOSE_WRITE)
      if wd.getD 1 0 = -1 then
        Startup.exited EXIT_FAILURE
          [Call.inotify_init1, Call.calloc argc, Call.inotify_add_watch fd path IN_CLOSE_WRITE,
            Call.cannotWatch path]
      else
        Startup.listening fd wd
          [Call.inotify_init1, Call.calloc argc, Call.inotify_add_watch fd path IN_CLOSE_WRITE,
            Call.listening]

/-- One turn of the dispatch loop as the environment decides it: what `poll`
returns and, when `handle_events` is then called, the queue of read results
and the contents of its two uninitialised arrays. -/
structure Cycle where
  poll_num : Int
  /-- Value of `errno` when `poll` returns `-1`. -/
  errno : Nat
  /-- Value of `fds[1].revents` after `poll`. -/
  revents : Nat
  channel : List ReadResult
  buf : List Char
  eventMessage : List Char

/-- A run of the process: the log of its calls and the exit status, `none`
while the process is still in the dispatch loop. -/
structure Run where
  log : List Call
  status : Option Nat
deriving DecidableEq, Repr

/-- Lines 147-165 of `main`: the loop `while (1)` over the turns the
environment provides; after the last one the process waits in `poll`. -/
def dispatch (wd : List Int) (argc : Nat) (argv : List (List Char)) :
    List Cycle → Result Run
  | [] => Result.ok { log := [Call.poll], status := none }
  | c :: cs =>
    if c.poll_num = -1 then
      if c.errno = EINTR then
        (dispatch wd argc argv cs).bind fun r => Result.ok { r with log := Call.poll :: r.log }
      else
        Result.ok { log := [Call.poll, Call.perror "poll"], status := some EXIT_FAILURE }
    else if c.poll_num > 0 ∧ c.revents &&& POLLIN ≠ 0 then
      (handle_events wd argc argv c.channel c.buf c.eventMessage).bind fun d =>
      match d.outcome with
      | Outcome.exited status =>
        Result.ok { log := [Call.poll, Call.system, Call.handle_events d.reports],
                    status := some status }
      | Outcome.returned =>
        (dispatch wd argc argv cs).bind fun r =>
        Result.ok { r with
          log := Call.poll :: Call.system :: Call.handle_events d.reports :: r.log }
    else
      (dispatch wd argc argv cs).bind fun r => Result.ok { r with log := Call.poll :: r.log }

/-- The function `main` from line 102 on (that is, after `daemon(0,0)`). -/
def main (os : OS) (argv : List (List Char)) (cycles : List Cycle) : Result Run :=
  match startup os argv with
  | Startup.exited status log => Result.ok { log := log, status := some status }
  | Startup.listening _ wd log =>
    (dispatch wd argv.length argv cycles).bind fun r =>
    Result.ok { r with log := log ++ r.log }

/-! ## Well-framed batches -/

/-- The four bytes of the little-endian `uint32_t` with value `n`. -/
def le32 (n : Nat) : List Char :=
  [Char.ofNat (n % 256), Char.ofNat (n / 256 % 256), Char.ofNat (n / 65536 % 256),
    Char.ofNat (n / 16777216 % 256)]

/-- A record as the kernel queues it: the header fields and the name field,
whose length is the `len` of the header. -/
structure Record where
  wd : Int
  mask : Nat
  cookie : Nat
  name : List Char
deriving DecidableEq, Repr

namespace Record

/-- The bytes of a record: the fixed header, then exactly `len` bytes of name. -/
def encode (r : Record) : List Char :=
  le32 (r.wd % 4294967296).toNat ++ le32 r.mask ++ le32 r.cookie ++ le32 r.name.length ++ r.name

/-- The fields are in the range of their C types, and a name field that is
not empty holds a NUL-terminated string. -/
def WellFormed (r : Record) : Prop :=
  -2147483648 ≤ r.wd ∧ r.wd < 2147483648 ∧ r.mask < 4294967296 ∧ r.cookie < 4294967296 ∧
    r.name.length < 4294967296 ∧ (r.name = [] ∨ NUL ∈ r.name)

instance (r : Record) : Decidable r.WellFormed := by
  unfold WellFormed; infer_instance

/-- What the loop body is to read from a record. -/
def event (r : Record) : Event :=
  { wd := r.wd, mask := r.mask, cookie := r.cookie, len := r.name.length,
    name := some (cstr r.name) }

end Record

/-- The bytes of a batch of back-to-back records. -/
def encodeAll : List Record → List Char
  | [] => []
  | r :: rs => r.encode ++ encodeAll rs

/-- A name field of `n` bytes holding the string `s` and NUL padding. -/
def nameField (s : String) (n : Nat) : List Char :=
  s.toList ++ List.replicate (n - s.length) NUL

/-! ## The text that an event adds to `eventMessage` -/

/-- The labels that lines 59-64 append for a mask. -/
def kindLabels (mask : Nat) : List Char :=
  (if mask &&& IN_OPEN ≠ 0 then "IN_OPEN: ".toList else []) ++
  (if mask &&& IN_CLOSE_NOWRITE ≠ 0 then "IN_CLOSE_WRITE: ".toList else []) ++
  (if mask &&& IN_CLOSE_WRITE ≠ 0 then "IN_CLOSE_WRITE: ".toList else [])

/-- The directory and slash that lines 68-74 append, the tables having the
entries that are read: those of the first index from `i` on, among `n`, at
which `wd` holds the handle; nothing when there is none. -/
def watchedDir (wd : List Int) (argv : List (List Char)) (eventWd : Int) :
    Nat → Nat → List Char
  | 0, _ => []
  | n + 1, i =>
    if wd.getD i 0 = eventWd then argv.getD i [] ++ "/".toList
    else watchedDir wd argv eventWd n (i + 1)

/-- The name that lines 78-79 append. -/
def nameText (event : Event) : List Char :=
  if event.len ≠ 0 then event.name.getD [] else []

/-- The object type that lines 83-86 append. -/
def typeLabel (mask : Nat) : List Char :=
  if mask &&& IN_ISDIR ≠ 0 then " [directory]\n".toList else " [file]\n".toList

/-- All that the loop body appends for an event. -/
def eventText (wd : List Int) (argc : Nat) (argv : List (List Char)) (event : Event) :
    List Char :=
  kindLabels event.mask ++ watchedDir wd argv event.wd (argc - 1) 1 ++ nameText event ++
    typeLabel event.mask

/-- The content of `eventMessage` after the records `rs` have been handled in
order, were the array large enough. -/
def messageAfter (wd : List Int) (argc : Nat) (argv : List (List Char)) :
    List Record → List Char → List Char
  | [], eventMessage => eventMessage
  | r :: rs, eventMessage =>
    messageAfter wd argc argv rs (eventMessage ++ eventText wd argc argv r.event)

/-- One message per record, in the order of the records, each the content of
`eventMessage` once its record has been handled. -/
def reportsOf (wd : List Int) (argc : Nat) (argv : List (List Char)) :
    List Record → List Char → List (List Char)
  | [], _ => []
  | r :: rs, eventMessage =>
    (eventMessage ++ eventText wd argc argv r.event) ::
      reportsOf wd argc argv rs (eventMessage ++ eventText wd argc argv r.event)

/-! ## Sample inputs -/

/-- A file closed after writing under the watch descriptor 1. -/
def recordA : Record :=
  { wd := 1, mask := IN_CLOSE_WRITE, cookie := 0, name := nameField "a.txt" 16 }

/-- Another file closed after writing under the watch descriptor 1. -/
def recordB : Record :=
  { wd := 1, mask := IN_CLOSE_WRITE, cookie := 0, name := nameField "b.txt" 16 }

/-- The file of `recordA`, closed without having been written. -/
def recordNoWrite : Record :=
  { wd := 1, mask := IN_CLOSE_NOWRITE, cookie := 0, name := nameField "a.txt" 16 }

/-- A file closed after writing under the watch descriptor 2. -/
def recordInB : Record :=
  { wd := 2, mask := IN_CLOSE_WRITE, cookie := 0, name := nameField "b.txt" 16 }

/-- A well-framed batch of 32 bytes: one record with the name `evil`. -/
def evilBatch : List Char :=
  encodeAll [{ wd := 1, mask := IN_CLOSE_WRITE, cookie := 0, name := nameField "evil" 16 }]

/-- A batch of 16 bytes: a header alone, which declares a name of 16 bytes. -/
def overrunBatch : List Char :=
  le32 1 ++ le32 IN_CLOSE_WRITE ++ le32 0 ++ le32 16

/-- An operating system on which every call of the start-up succeeds: the
descriptor is 3, and the watch descriptors are 1 for `/tmp/a`, 2 for `/tmp/b`
and 3 for any other path. -/
def osAllSucceed : OS :=
  { inotify_init1 := 3
    calloc := true
    inotify_add_watch := fun _ path _ =>
      if path = "/tmp/a".toList then 1 else if path = "/tmp/b".toList then 2 else 3 }

/-- An operating system on which no path can be watched. -/
def osNoWatch : OS :=
  { inotify_init1 := 3, calloc := true, inotify_add_watch := fun _ _ _ => -1 }

/-- A turn of the dispatch loop in which one batch with `recordA` is readable. -/
def readyCycle : Cycle :=
  { poll_num := 1, errno := 0, revents := POLLIN,
    channel := [ReadResult.data (encodeAll [recordA])], buf := [], eventMessage := [] }

/-! ## Lemmas on the byte layout and on `strcat` -/

@[simp] theorem Result.bind_ok {α β : Type} (a : α) (k : α → Result β) :
    (Result.ok a).bind k = k a := rfl

@[simp] theorem Result.bind_fault {α β : Type} (f : Fault) (k : α → Result β) :
    (Result.fault f : Result α).bind k = Result.fault f := rfl

theorem toNat_ofNat_byte (b : Nat) (h : b < 256) : (Char.ofNat b).toNat = b := by
  have hv : b.isValidChar := Or.inl (by omega)
  unfold Char.ofNat
  rw [dif_pos hv]
  rfl

theorem byteAt_cons_zero (c : Char) (mem : List Char) : byteAt (c :: mem) 0 = c.toNat % 256 := by
  simp [byteAt]

theorem byteAt_cons_succ (c : Char) (mem : List Char) (i : Nat) :
    byteAt (c :: mem) (i + 1) = byteAt mem i := by
  simp [byteAt]

theorem rd32_cons_succ (c : Char) (mem : List Char) (i : Nat) :
    rd32 (c :: mem) (i + 1) = rd32 mem i := by
  simp [rd32, byteAt_cons_succ]

theorem rd32_le32 (n : Nat) (h : n < 4294967296) (mem : List Char) :
    rd32 (le32 n ++ mem) 0 = n := by
  simp only [rd32, le32, List.cons_append, List.nil_append, byteAt_cons_succ, byteAt_cons_zero,
    Nat.zero_add]
  rw [toNat_ofNat_byte _ (Nat.mod_lt _ (by norm_num)), toNat_ofNat_byte _ (Nat.mod_lt _ (by norm_num)),
    toNat_ofNat_byte _ (Nat.mod_lt _ (by norm_num)), toNat_ofNat_byte _ (Nat.mod_lt _ (by norm_num))]
  omega

theorem rd32_le32_skip (n : Nat) (mem : List Char) (i : Nat) :
    rd32 (le32 n ++ mem) (i + 4) = rd32 mem i := by
  simp only [le32, List.cons_append, List.nil_append]
  rw [show i + 4 = i + 1 + 1 + 1 + 1 by omega]
  simp only [rd32_cons_succ]

theorem toInt32_encode (w : Int) (h1 : -2147483648 ≤ w) (h2 : w < 2147483648) :
    toInt32 (w % 4294967296).toNat = w := by
  unfold toInt32
  split <;> omega

theorem length_le32 (n : Nat) : (le32 n).length = 4 := rfl

theorem Record.length_encode (r : Record) : r.encode.length = EVENT_SIZE + r.name.length := by
  simp [Record.encode, length_le32, EVENT_SIZE]; omega

theorem cstr_append_of_mem (name rest : List Char) (h : NUL ∈ name) :
    cstr (name ++ rest) = cstr name := by
  induction name with
  | nil => simp at h
  | cons c cs ih =>
    by_cases hc : c = NUL
    · subst hc; simp [cstr, List.takeWhile]
    · have : NUL ∈ cs := by
        rcases List.mem_cons.1 h with h | h
        · exact absurd h.symm hc
        · exact h
      have ih := ih this
      simp only [cstr] at ih ⊢
      simp [List.takeWhile, hc, ih]

theorem cstrAt_append_of_mem (name rest : List Char) (h : NUL ∈ name) :
    cstrAt (name ++ rest) = some (cstr name) := by
  simp [cstrAt, h, cstr_append_of_mem name rest h]

theorem eventAt_encode (pre rest : List Char) (r : Record) (h : r.WellFormed) :
    eventAt (pre ++ (r.encode ++ rest)) pre.length =
      some { wd := r.wd, mask := r.mask, cookie := r.cookie, len := r.name.length,
             name := cstrAt (r.name ++ rest) } := by
  obtain ⟨h1, h2, h3, h4, h5, _⟩ := h
  have hw : (r.wd % 4294967296).toNat < 4294967296 := by omega
  have hlen : EVENT_SIZE ≤ (r.encode ++ rest).length := by
    simp [Record.length_encode]; omega
  simp only [eventAt, List.drop_left, if_pos hlen]
  simp only [Record.encode, List.append_assoc, EVENT_SIZE]
  have e0 := rd32_le32 _ hw (le32 r.mask ++ (le32 r.cookie ++ (le32 r.name.length ++ (r.name ++ rest))))
  have e4 : rd32 (le32 (r.wd % 4294967296).toNat ++ (le32 r.mask ++ (le32 r.cookie ++
      (le32 r.name.length ++ (r.name ++ rest))))) 4 = r.mask := by
    rw [show (4 : Nat) = 0 + 4 from rfl, rd32_le32_skip, rd32_le32 _ h3]
  have e8 : rd32 (le32 (r.wd % 4294967296).toNat ++ (le32 r.mask ++ (le32 r.cookie ++
      (le32 r.name.length ++ (r.name ++ rest))))) 8 = r.cookie := by
    rw [show (8 : Nat) = 0 + 4 + 4 from rfl, rd32_le32_skip, rd32_le32_skip, rd32_le32 _ h4]
  have e12 : rd32 (le32 (r.wd % 4294967296).toNat ++ (le32 r.mask ++ (le32 r.cookie ++
      (le32 r.name.length ++ (r.name ++ rest))))) 12 = r.name.length := by
    rw [show (12 : Nat) = 0 + 4 + 4 + 4 from rfl, rd32_le32_skip, rd32_le32_skip, rd32_le32_skip,
      rd32_le32 _ h5]
  have ed : List.drop 16 (le32 (r.wd % 4294967296).toNat ++ (le32 r.mask ++ (le32 r.cookie ++
      (le32 r.name.length ++ (r.name ++ rest))))) = r.name ++ rest := by
    simp [le32]
  rw [e0, e4, e8, e12, ed, toInt32_encode _ h1 h2]

theorem Result.bind_assoc {α β γ : Type} (r : Result α) (f : α → Result β)
    (g : β → Result γ) : (r.bind f).bind g = r.bind (fun a => (f a).bind g) := by
  cases r <;> rfl

theorem Result.bind_ok_right {α : Type} (r : Result α) : r.bind Result.ok = r := by
  cases r <;> rfl

theorem strcat_fits (dest src : List Char) (h : fitsEventMessage (dest ++ src)) :
    strcat dest src = Result.ok (dest ++ src) := by
  simp [strcat, h]

theorem strcat_overrun (dest src : List Char) (h : ¬ fitsEventMessage (dest ++ src)) :
    strcat dest src = Result.fault Fault.overrun := by
  simp [strcat, h]

theorem strcat_nil (msg : List Char) (h : fitsEventMessage msg) :
    strcat msg [] = Result.ok msg := by
  simp [strcat, h]

theorem fits_of_le {a b : List Char} (h : fitsEventMessage b) (hle : a.length ≤ b.length) :
    fitsEventMessage a := by
  unfold fitsEventMessage at *
  omega

/-- Two calls of `strcat` in a row append the two strings, or overrun. -/
theorem bind_strcat (msg t s : List Char) :
    (strcat msg t).bind (fun m => strcat m s) = strcat msg (t ++ s) := by
  by_cases h : fitsEventMessage (msg ++ t)
  · rw [strcat_fits _ _ h, Result.bind_ok]
    simp [strcat]
  · have h2 : ¬ fitsEventMessage (msg ++ (t ++ s)) := by
      intro hc
      exact h (fits_of_le hc (by simp))
    rw [strcat_overrun _ _ h, strcat_overrun _ _ h2, Result.bind_fault]

theorem bind_cond_strcat (msg t s : List Char) (c : Prop) [Decidable c] :
    (strcat msg t).bind (fun m => if c then strcat m s else Result.ok m) =
      strcat msg (t ++ if c then s else []) := by
  by_cases hc : c
  · simp only [hc, if_true]
    exact bind_strcat msg t s
  · simp only [hc, if_false, List.append_nil]
    exact Result.bind_ok_right _

theorem bind_printEventType (mask : Nat) (msg t : List Char) :
    (strcat msg t).bind (printEventType mask) = strcat msg (t ++ kindLabels mask) := by
  unfold printEventType kindLabels
  rw [← Result.bind_assoc, ← Result.bind_assoc, bind_cond_strcat, bind_cond_strcat,
    bind_cond_strcat]
  simp only [List.append_assoc]

theorem bind_printWatchedDir (wd : List Int) (argv : List (List Char)) (h : Int) :
    ∀ (n i : Nat) (msg t : List Char),
      (∀ j, i ≤ j → j < i + n → j < wd.length ∧ j < argv.length) →
      (strcat msg t).bind (printWatchedDir wd argv h n i) =
        strcat msg (t ++ watchedDir wd argv h n i) := by
  intro n
  induction n with
  | zero =>
    intro i msg t _
    have hf : printWatchedDir wd argv h 0 i = Result.ok := by
      funext m
      rfl
    simp only [hf, watchedDir, List.append_nil]
    exact Result.bind_ok_right _
  | succ n ih =>
    intro i msg t hin
    obtain ⟨hiw, hia⟩ := hin i (Nat.le_refl _) (by omega)
    have hw : wd[i]? = some (wd.getD i 0) := by
      rw [List.getD_eq_getElem?_getD, List.getElem?_eq_getElem hiw]
      rfl
    have ha : argv[i]? = some (argv.getD i []) := by
      rw [List.getD_eq_getElem?_getD, List.getElem?_eq_getElem hia]
      rfl
    by_cases hc : wd.getD i 0 = h
    · have hf : printWatchedDir wd argv h (n + 1) i =
          fun m => (strcat m (argv.getD i [])).bind fun m1 => strcat m1 "/".toList := by
        funext m
        simp only [printWatchedDir, hw, ha, hc, if_true]
      simp only [hf, watchedDir, hc, if_true]
      rw [← Result.bind_assoc, bind_strcat, bind_strcat]
      simp only [List.append_assoc]
    · have hf : printWatchedDir wd argv h (n + 1) i = printWatchedDir wd argv h n (i + 1) := by
        funext m
        simp only [printWatchedDir, hw, hc, if_false]
      simp only [hf, watchedDir, hc, if_false]
      exact ih (i + 1) msg t (fun j h1 h2 => hin j (by omega) (by omega))

theorem scan_in_range (wd : List Int) (argc : Nat) (argv : List (List Char))
    (hwd : argc ≤ wd.length) (hargv : argc ≤ argv.length) :
    ∀ j, 1 ≤ j → j < 1 + (argc - 1) → j < wd.length ∧ j < argv.length := by
  intro j h1 h2
  constructor <;> omega

theorem bind_printName (event : Event) (hname : event.len = 0 ∨ event.name ≠ none)
    (msg t : List Char) :
    (strcat msg t).bind (printName event) = strcat msg (t ++ nameText event) := by
  by_cases hl : event.len = 0
  · have hf : printName event = Result.ok := by
      funext m
      simp [printName, hl]
    simp only [hf, nameText, hl, ne_eq, not_true_eq_false, if_false, List.append_nil]
    exact Result.bind_ok_right _
  · cases hn : event.name with
    | none =>
      rcases hname with h | h
      · exact absurd h hl
      · exact absurd hn h
    | some name =>
      have hf : printName event = fun m => strcat m name := by
        funext m
        simp [printName, hl, hn]
      simp only [hf, nameText, hl, ne_eq, not_false_eq_true, if_true, hn, Option.getD_some]
      exact bind_strcat msg t name

/-- The loop body appends the text of the event, or overruns `eventMessage`,
when the scan of the table appends `dir` or overruns. -/
theorem handleEvent_eq_of_scan (wd : List Int) (argc : Nat) (argv : List (List Char))
    (event : Event) (dir : List Char)
    (hscan : ∀ m t : List Char,
      (strcat m t).bind (printWatchedDir wd argv event.wd (argc - 1) 1) = strcat m (t ++ dir))
    (hname : event.len = 0 ∨ event.name ≠ none) (msg : List Char)
    (hmsg : fitsEventMessage msg) :
    handleEvent wd argc argv event msg =
      strcat msg (kindLabels event.mask ++ dir ++ nameText event ++ typeLabel event.mask) := by
  have h0 : handleEvent wd argc argv event msg =
      (strcat msg []).bind (handleEvent wd argc argv event) := by
    rw [strcat_nil msg hmsg, Result.bind_ok]
  rw [h0]
  unfold handleEvent typeLabel
  rw [← Result.bind_assoc, ← Result.bind_assoc, ← Result.bind_assoc, bind_printEventType,
    hscan, bind_printName event hname]
  by_cases hd : event.mask &&& IN_ISDIR = 0
  · simp only [hd, ne_eq, not_true_eq_false, if_false]
    rw [bind_strcat]
    simp only [List.nil_append, List.append_assoc]
  · simp only [hd, ne_eq, not_false_eq_true, if_true]
    rw [bind_strcat]
    simp only [List.nil_append, List.append_assoc]

/-- The loop body appends the text of the event, or overruns `eventMessage`. -/
theorem handleEvent_eq (wd : List Int) (argc : Nat) (argv : List (List Char))
    (hwd : argc ≤ wd.length) (hargv : argc ≤ argv.length)
    (event : Event) (hname : event.len = 0 ∨ event.name ≠ none) (msg : List Char)
    (hmsg : fitsEventMessage msg) :
    handleEvent wd argc argv event msg = strcat msg (eventText wd argc argv event) :=
  handleEvent_eq_of_scan wd argc argv event (watchedDir wd argv event.wd (argc - 1) 1)
    (fun m t => bind_printWatchedDir wd argv event.wd (argc - 1) 1 m t
      (scan_in_range wd argc argv hwd hargv)) hname msg hmsg

theorem handleEvent_fits (wd : List Int) (argc : Nat) (argv : List (List Char))
    (hwd : argc ≤ wd.length) (hargv : argc ≤ argv.length)
    (event : Event) (hname : event.len = 0 ∨ event.name ≠ none) (msg : List Char)
    (h : fitsEventMessage (msg ++ eventText wd argc argv event)) :
    handleEvent wd argc argv event msg = Result.ok (msg ++ eventText wd argc argv event) := by
  rw [handleEvent_eq wd argc argv hwd hargv event hname msg (fits_of_le h (by simp)),
    strcat_fits _ _ h]

/-! ## Lemmas on the decode loop over well-framed batches -/

theorem length_encodeAll_ge (rs : List Record) : rs.length ≤ (encodeAll rs).length := by
  induction rs with
  | nil => simp [encodeAll]
  | cons r rs ih => simp [encodeAll, Record.length_encode, EVENT_SIZE]; omega

theorem messageAfter_length_ge (wd : List Int) (argc : Nat) (argv : List (List Char))
    (rs : List Record) : ∀ msg : List Char,
      msg.length ≤ (messageAfter wd argc argv rs msg).length := by
  induction rs with
  | nil => intro msg; simp [messageAfter]
  | cons r rs ih =>
    intro msg
    have h := ih (msg ++ eventText wd argc argv r.event)
    simp only [messageAfter]
    simp only [List.length_append] at h
    omega

theorem fits_head (wd : List Int) (argc : Nat) (argv : List (List Char)) (r : Record)
    (rs : List Record) (msg : List Char)
    (h : fitsEventMessage (messageAfter wd argc argv (r :: rs) msg)) :
    fitsEventMessage (msg ++ eventText wd argc argv r.event) :=
  fits_of_le h (messageAfter_length_ge wd argc argv rs _)

/-- The event that the loop reads at the start of an encoded record adds the
text of the record. -/
theorem handleEvent_encode (wd : List Int) (argc : Nat) (argv : List (List Char))
    (hwd : argc ≤ wd.length) (hargv : argc ≤ argv.length)
    (rest : List Char) (r : Record) (h : r.WellFormed) (msg : List Char)
    (hfit : fitsEventMessage (msg ++ eventText wd argc argv r.event)) :
    handleEvent wd argc argv
        { wd := r.wd, mask := r.mask, cookie := r.cookie, len := r.name.length,
          name := cstrAt (r.name ++ rest) } msg =
      Result.ok (msg ++ eventText wd argc argv r.event) := by
  rcases h.2.2.2.2.2 with hn | hn
  · have ht : eventText wd argc argv
        { wd := r.wd, mask := r.mask, cookie := r.cookie, len := r.name.length,
          name := cstrAt (r.name ++ rest) } = eventText wd argc argv r.event := by
      simp [eventText, nameText, Record.event, hn]
    have h1 := handleEvent_fits wd argc argv hwd hargv
      { wd := r.wd, mask := r.mask, cookie := r.cookie, len := r.name.length,
        name := cstrAt (r.name ++ rest) } (Or.inl (by simp [hn])) msg (by rw [ht]; exact hfit)
    rw [h1, ht]
  · rw [cstrAt_append_of_mem _ _ hn]
    exact handleEvent_fits wd argc argv hwd hargv r.event (Or.inr (by simp [Record.event])) msg hfit

theorem eventLoop_at_end (wd : List Int) (argc : Nat) (argv : List (List Char))
    (buf : List Char) (len fuel off : Nat) (msg : List Char) (h : ¬ off < len) :
    eventLoop wd argc argv buf len fuel off msg = Result.ok ([], msg) := by
  cases fuel <;> simp [eventLoop, h]

theorem eventLoop_prefix (wd : List Int) (argc : Nat) (argv : List (List Char))
    (hwd : argc ≤ wd.length) (hargv : argc ≤ argv.length)
    (rest : List Char) (len fuel : Nat) (rs : List Record) (hwf : ∀ r ∈ rs, r.WellFormed) :
    ∀ (pre msg : List Char), pre.length + (encodeAll rs).length ≤ len →
      fitsEventMessage (messageAfter wd argc argv rs msg) →
      eventLoop wd argc argv (pre ++ (encodeAll rs ++ rest)) len (rs.length + fuel)
          pre.length msg =
        (eventLoop wd argc argv (pre ++ (encodeAll rs ++ rest)) len fuel
            (pre.length + (encodeAll rs).length) (messageAfter wd argc argv rs msg)).bind
          fun tail => Result.ok (reportsOf wd argc argv rs msg ++ tail.1, tail.2) := by
  induction rs with
  | nil =>
    intro pre msg _ _
    simp only [encodeAll, List.length_nil, Nat.zero_add, Nat.add_zero, messageAfter, reportsOf,
      List.nil_append]
    exact (Result.bind_ok_right _).symm
  | cons r rs ih =>
    intro pre msg hlen hfit
    have hr : r.WellFormed := hwf r (List.mem_cons_self _ _)
    have hrs : ∀ x ∈ rs, x.WellFormed := fun x hx => hwf x (List.mem_cons_of_mem _ hx)
    have hle : (encodeAll (r :: rs)).length = EVENT_SIZE + r.name.length + (encodeAll rs).length := by
      simp [encodeAll, Record.length_encode]
    have hlt : pre.length < len := by
      simp only [EVENT_SIZE] at hle; omega
    have hbuf : pre ++ (encodeAll (r :: rs) ++ rest) =
        pre ++ (r.encode ++ (encodeAll rs ++ rest)) := by
      simp [encodeAll]
    have hev := eventAt_encode pre (encodeAll rs ++ rest) r hr
    have hh := handleEvent_encode wd argc argv hwd hargv (encodeAll rs ++ rest) r hr msg
      (fits_head wd argc argv r rs msg hfit)
    have hoff : (pre ++ r.encode).length = pre.length + (EVENT_SIZE + r.name.length) := by
      simp [Record.length_encode]
    have ih' := ih hrs (pre ++ r.encode) (msg ++ eventText wd argc argv r.event)
      (by rw [hoff]; omega) hfit
    rw [List.append_assoc, hoff] at ih'
    have hfuel : (r :: rs).length + fuel = (rs.length + fuel) + 1 := by
      simp only [List.length_cons]; omega
    have hpos : pre.length + (encodeAll (r :: rs)).length =
        pre.length + (EVENT_SIZE + r.name.length) + (encodeAll rs).length := by omega
    rw [hfuel, eventLoop, if_pos hlt, hbuf, hev]
    simp only [hh, Result.bind_ok]
    rw [ih', ← hbuf, hpos, Result.bind_assoc]
    simp only [messageAfter, reportsOf, Result.bind_ok, List.cons_append]

theorem eventLoop_succ (wd : List Int) (argc : Nat) (argv : List (List Char))
    (buf : List Char) (len fuel off : Nat) (msg : List Char) (h : off < len) :
    eventLoop wd argc argv buf len (fuel + 1) off msg =
      match eventAt buf off with
      | none => Result.fault Fault.overread
      | some event =>
        (handleEvent wd argc argv event msg).bind fun m =>
        (eventLoop wd argc argv buf len fuel (off + (EVENT_SIZE + event.len)) m).bind
          fun rest => Result.ok (m :: rest.1, rest.2) := by
  rw [eventLoop, if_pos h]

theorem encodeAll_ne_nil (r : Record) (rs : List Record) : (encodeAll (r :: rs)).length ≠ 0 := by
  simp [encodeAll, Record.length_encode, EVENT_SIZE]

theorem handle_events_data (wd : List Int) (argc : Nat) (argv : List (List Char))
    (bytes : List Char) (rest : List ReadResult) (buf msg : List Char)
    (reports : List (List Char)) (final : List Char) (d : Drain) (hne : bytes ≠ [])
    (hloop : eventLoop wd argc argv (bytes ++ buf.drop bytes.length) bytes.length
      bytes.length 0 msg = Result.ok (reports, final))
    (hrest : handle_events wd argc argv rest (bytes ++ buf.drop bytes.length) final =
      Result.ok d) :
    handle_events wd argc argv (ReadResult.data bytes :: rest) buf msg =
      Result.ok { d with reports := reports ++ d.reports, reads := d.reads + 1 } := by
  have hl : ¬ bytes.length ≤ 0 := by
    cases bytes with
    | nil => exact absurd rfl hne
    | cons c cs => simp
  rw [handle_events]
  simp only [hl, if_false, hloop, hrest, Result.bind_ok]

theorem handle_events_data_fault (wd : List Int) (argc : Nat) (argv : List (List Char))
    (bytes : List Char) (rest : List ReadResult) (buf msg : List Char) (f : Fault)
    (hne : bytes ≠ [])
    (hloop : eventLoop wd argc argv (bytes ++ buf.drop bytes.length) bytes.length
      bytes.length 0 msg = Result.fault f) :
    handle_events wd argc argv (ReadResult.data bytes :: rest) buf msg = Result.fault f := by
  have hl : ¬ bytes.length ≤ 0 := by
    cases bytes with
    | nil => exact absurd rfl hne
    | cons c cs => simp
  rw [handle_events]
  simp only [hl, if_false, hloop, Result.bind_fault]

theorem encodeAll_ne_nil_of_ne (rs : List Record) (h : rs ≠ []) : encodeAll rs ≠ [] := by
  cases rs with
  | nil => exact absurd rfl h
  | cons r rs =>
    intro hc
    exact encodeAll_ne_nil r rs (by simp [hc])

theorem startup_add_watch_fails (os : OS) (argv : List (List Char))
    (h1 : ¬ argv.length < 2) (h2 : os.inotify_init1 ≠ -1) (h3 : os.calloc ≠ false)
    (h4 : os.inotify_add_watch os.inotify_init1 (argv.getD 1 []) IN_CLOSE_WRITE = -1) :
    startup os argv = Startup.exited EXIT_FAILURE
      [Call.inotify_init1, Call.calloc argv.length,
        Call.inotify_add_watch os.inotify_init1 (argv.getD 1 []) IN_CLOSE_WRITE,
        Call.cannotWatch (argv.getD 1 [])] := by
  match argv, h1 with
  | [], h => simp at h
  | [_], h => simp at h
  | a :: b :: rest, _ =>
    simp only [List.getD_cons_succ, List.getD_cons_zero] at h4
    simp [startup, h2, h3, h4, List.replicate_succ]

/-! ## Lemmas on the overrun of `eventMessage` -/

theorem handleEvent_encode_eq (wd : List Int) (argc : Nat) (argv : List (List Char))
    (hwd : argc ≤ wd.length) (hargv : argc ≤ argv.length)
    (rest : List Char) (r : Record) (h : r.WellFormed) (msg : List Char)
    (hmsg : fitsEventMessage msg) :
    handleEvent wd argc argv
        { wd := r.wd, mask := r.mask, cookie := r.cookie, len := r.name.length,
          name := cstrAt (r.name ++ rest) } msg =
      strcat msg (eventText wd argc argv r.event) := by
  rcases h.2.2.2.2.2 with hn | hn
  · have ht : eventText wd argc argv
        { wd := r.wd, mask := r.mask, cookie := r.cookie, len := r.name.length,
          name := cstrAt (r.name ++ rest) } = eventText wd argc argv r.event := by
      simp [eventText, nameText, Record.event, hn]
    rw [handleEvent_eq wd argc argv hwd hargv _ (Or.inl (by simp [hn])) msg hmsg, ht]
  · rw [cstrAt_append_of_mem _ _ hn]
    exact handleEvent_eq wd argc argv hwd hargv r.event (Or.inr (by simp [Record.event])) msg hmsg

/-- On a batch of well-formed records whose accumulated message does not fit
`eventMessage`, the decode loop overruns the array. -/
theorem eventLoop_overrun (wd : List Int) (argc : Nat) (argv : List (List Char))
    (hwd : argc ≤ wd.length) (hargv : argc ≤ argv.length)
    (rest : List Char) (len : Nat) (rs : List Record) (hwf : ∀ r ∈ rs, r.WellFormed) :
    ∀ (pre msg : List Char) (fuel : Nat), rs.length ≤ fuel →
      pre.length + (encodeAll rs).length ≤ len → fitsEventMessage msg →
      ¬ fitsEventMessage (messageAfter wd argc argv rs msg) →
      eventLoop wd argc argv (pre ++ (encodeAll rs ++ rest)) len fuel pre.length msg =
        Result.fault Fault.overrun := by
  induction rs with
  | nil =>
    intro pre msg fuel _ _ hmsg hno
    exact absurd hmsg hno
  | cons r rs ih =>
    intro pre msg fuel hfuel hlen hmsg hno
    have hr : r.WellFormed := hwf r (List.mem_cons_self _ _)
    have hrs : ∀ x ∈ rs, x.WellFormed := fun x hx => hwf x (List.mem_cons_of_mem _ hx)
    obtain ⟨g, rfl⟩ : ∃ g, fuel = g + 1 := ⟨fuel - 1, by simp at hfuel; omega⟩
    have hle : (encodeAll (r :: rs)).length = EVENT_SIZE + r.name.length + (encodeAll rs).length := by
      simp [encodeAll, Record.length_encode]
    have hlt : pre.length < len := by
      simp only [EVENT_SIZE] at hle; omega
    have hbuf : pre ++ (encodeAll (r :: rs) ++ rest) =
        pre ++ (r.encode ++ (encodeAll rs ++ rest)) := by
      simp [encodeAll]
    have hev := eventAt_encode pre (encodeAll rs ++ rest) r hr
    have hh := handleEvent_encode_eq wd argc argv hwd hargv (encodeAll rs ++ rest) r hr msg hmsg
    have hoff : (pre ++ r.encode).length = pre.length + (EVENT_SIZE + r.name.length) := by
      simp [Record.length_encode]
    rw [eventLoop_succ wd argc argv _ len g pre.length msg hlt, hbuf, hev]
    simp only [hh]
    by_cases hfit : fitsEventMessage (msg ++ eventText wd argc argv r.event)
    · have ih' := ih hrs (pre ++ r.encode) (msg ++ eventText wd argc argv r.event) g
        (by simp at hfuel; omega) (by rw [hoff]; omega) hfit hno
      rw [List.append_assoc, hoff] at ih'
      rw [strcat_fits _ _ hfit, Result.bind_ok, ih', Result.bind_fault]
    · rw [strcat_overrun _ _ hfit, Result.bind_fault]

theorem messageAfter_length (wd : List Int) (argc : Nat) (argv : List (List Char))
    (rs : List Record) : ∀ msg : List Char,
      (messageAfter wd argc argv rs msg).length =
        msg.length + (rs.map fun r => (eventText wd argc argv r.event).length).sum := by
  induction rs with
  | nil => intro msg; simp [messageAfter]
  | cons r rs ih =>
    intro msg
    simp only [messageAfter, ih, List.length_append, List.map_cons, List.sum_cons]
    omega

/-- The message is never cleared: a batch of well-formed records whose texts
do not fit `eventMessage` together makes `handle_events` overrun the array. -/
theorem handle_events_overrun (wd : List Int) (argc : Nat) (argv : List (List Char))
    (hwd : argc ≤ wd.length) (hargv : argc ≤ argv.length)
    (rs : List Record) (hwf : ∀ r ∈ rs, r.WellFormed) (rest : List ReadResult)
    (buf msg : List Char) (hmsg : fitsEventMessage msg)
    (hno : ¬ fitsEventMessage (messageAfter wd argc argv rs msg)) :
    handle_events wd argc argv (ReadResult.data (encodeAll rs) :: rest) buf msg =
      Result.fault Fault.overrun := by
  have hne : rs ≠ [] := by
    intro h
    subst h
    exact hno hmsg
  have h := eventLoop_overrun wd argc argv hwd hargv (buf.drop (encodeAll rs).length)
    (encodeAll rs).length rs hwf [] msg (encodeAll rs).length (length_encodeAll_ge rs)
    (by simp) hmsg hno
  simp only [List.nil_append, List.length_nil] at h
  exact handle_events_data_fault wd argc argv (encodeAll rs) rest buf msg Fault.overrun
    (encodeAll_ne_nil_of_ne rs hne) h

/-- One batch of 114 records like `recordA`, 3648 bytes, under the watched
directory `/tmp/a`: the message would take 4104 characters, and
`handle_events` overruns `eventMessage`. -/
theorem handle_events_overrun_114 :
    handle_events [0, 1] 2 ["prog".toList, "/tmp/a".toList]
        [ReadResult.data (encodeAll (List.replicate 114 recordA))] [] [] =
      Result.fault Fault.overrun := by
  apply handle_events_overrun
  · decide
  · decide
  · intro r hr
    rw [List.eq_of_mem_replicate hr]
    decide
  · decide
  · have hlen := messageAfter_length [0, 1] 2 ["prog".toList, "/tmp/a".toList]
      (List.replicate 114 recordA) []
    have ht : (eventText [0, 1] 2 ["prog".toList, "/tmp/a".toList] recordA.event).length = 36 := by
      decide
    simp only [List.map_replicate, List.sum_replicate, ht, List.length_nil, smul_eq_mul] at hlen
    unfold fitsEventMessage EVENT_MESSAGE_SIZE
    omega

/-! ## Further lemmas -/

/-- A record that runs past the valid length is handled like any other, and
is the last of its batch. -/
theorem eventLoop_last_record (wd : List Int) (argc : Nat) (argv : List (List Char))
    (hwd : argc ≤ wd.length) (hargv : argc ≤ argv.length)
    (buf : List Char) (len off fuel : Nat) (msg : List Char) (event : Event)
    (hoff : off < len) (hev : eventAt buf off = some event)
    (hover : len - off < EVENT_SIZE + event.len)
    (hname : event.len = 0 ∨ event.name ≠ none)
    (hfit : fitsEventMessage (msg ++ eventText wd argc argv event)) :
    eventLoop wd argc argv buf len (fuel + 1) off msg =
      Result.ok ([msg ++ eventText wd argc argv event],
                 msg ++ eventText wd argc argv event) := by
  have hend : ¬ off + (EVENT_SIZE + event.len) < len := by omega
  rw [eventLoop_succ wd argc argv buf len fuel off msg hoff, hev]
  simp only [handleEvent_fits wd argc argv hwd hargv event hname msg hfit, Result.bind_ok,
    eventLoop_at_end wd argc argv buf len fuel _ _ hend]

/-- C2 (defect of the code): a record whose mask is `IN_CLOSE_NOWRITE` alone is
reported with the label `IN_CLOSE_WRITE: `, the same message as for the record
with the mask `IN_CLOSE_WRITE`; with both bits the label is attached twice. -/
theorem close_nowrite_gets_close_write_label :
    handle_events [0, 1] 2 ["prog".toList, "/tmp/watched".toList]
        [ReadResult.data (encodeAll [recordNoWrite])] [] [] =
      Result.ok { reports := ["IN_CLOSE_WRITE: /tmp/watched/a.txt [file]\n".toList],
                  outcome := Outcome.returned, reads := 2, pending := [] } ∧
    handle_events [0, 1] 2 ["prog".toList, "/tmp/watched".toList]
        [ReadResult.data (encodeAll [recordA])] [] [] =
      Result.ok { reports := ["IN_CLOSE_WRITE: /tmp/watched/a.txt [file]\n".toList],
                  outcome := Outcome.returned, reads := 2, pending := [] } ∧
    printEventType (IN_CLOSE_NOWRITE + IN_CLOSE_WRITE) [] =
      Result.ok "IN_CLOSE_WRITE: IN_CLOSE_WRITE: ".toList := by
  decide

/-- C4 (defect of the code): started with the two paths `/tmp/a` and `/tmp/b`
on a system where every call succeeds, `main` adds one watch, for `/tmp/a`,
and enters the dispatch loop with the table `[0, 1, 0]`: entry 2 is not the
descriptor 2 that adding a watch on `/tmp/b` returns, and an event with that
descriptor is reported without a directory. -/
theorem startup_watches_first_path_only :
    startup osAllSucceed ["prog".toList, "/tmp/a".toList, "/tmp/b".toList] =
      Startup.listening 3 [0, 1, 0]
        [Call.inotify_init1, Call.calloc 3,
          Call.inotify_add_watch 3 "/tmp/a".toList IN_CLOSE_WRITE, Call.listening] ∧
    osAllSucceed.inotify_add_watch 3 "/tmp/b".toList IN_CLOSE_WRITE = 2 ∧
    handle_events [0, 1, 0] 3 ["prog".toList, "/tmp/a".toList, "/tmp/b".toList]
        [ReadResult.data (encodeAll [recordInB])] [] [] =
      Result.ok { reports := ["IN_CLOSE_WRITE: b.txt [file]\n".toList],
                  outcome := Outcome.returned, reads := 2, pending := [] } := by
  decide

/-- C5, as stated, fails: the second batch is 16 bytes long and its only
record declares 16 bytes of name, so header and name exceed the valid length;
`handle_events` raises no error and returns normally, and the message for that
record carries the name `evil`, which it read past the valid length from what
the first batch had left in `buf`. -/
theorem overrun_record_raises_no_error :
    overrunBatch.length = 16 ∧ (eventAt overrunBatch 0).map Event.len = some 16 ∧
    handle_events [0, 1] 2 ["prog".toList, "/tmp/a".toList]
        [ReadResult.data evilBatch, ReadResult.data overrunBatch] [] [] =
      Result.ok { reports :=
                    ["IN_CLOSE_WRITE: /tmp/a/evil [file]\n".toList,
                     ("IN_CLOSE_WRITE: /tmp/a/evil [file]\n" ++
                       "IN_CLOSE_WRITE: /tmp/a/evil [file]\n").toList],
                  outcome := Outcome.returned, reads := 3, pending := [] } := by
  decide

/-- C5, amended: when the decode loop is at a record at offset `off < len`
whose header size plus declared name length exceeds the bytes that remain, no
error is raised: provided that `wd` and `argv` have `argc` entries, that the
header, and the name if the record has one, lie inside `buf`, and that the
message fits `eventMessage`, the loop passes one message for that record to
`syslog`, the previous content followed by the text of the record as read
from `buf` at that offset, and ends the batch.  So on a batch made of
well-formed records `rs` and then the bytes `last` of such a record,
`handle_events` reports the records `rs`, reports the overrunning record, and
returns normally. -/
theorem overrun_record_is_reported_and_ends_batch (wd : List Int) (argc : Nat)
    (argv : List (List Char)) (hwd : argc ≤ wd.length) (hargv : argc ≤ argv.length)
    (buf : List Char) (len off fuel : Nat) (msg : List Char)
    (event : Event) (hoff : off < len) (hev : eventAt buf off = some event)
    (hover : len - off < EVENT_SIZE + event.len)
    (hname : event.len = 0 ∨ event.name ≠ none)
    (hfit : fitsEventMessage (msg ++ eventText wd argc argv event)) :
    eventLoop wd argc argv buf len (fuel + 1) off msg =
      Result.ok ([msg ++ eventText wd argc argv event],
                 msg ++ eventText wd argc argv event) ∧
    ∀ (rs : List Record) (last buf2 msg2 : List Char) (e : Event),
      (∀ r ∈ rs, r.WellFormed) → last ≠ [] →
      eventAt (encodeAll rs ++ last ++ buf2.drop (encodeAll rs ++ last).length)
        (encodeAll rs).length = some e →
      last.length < EVENT_SIZE + e.len → (e.len = 0 ∨ e.name ≠ none) →
      fitsEventMessage (messageAfter wd argc argv rs msg2 ++ eventText wd argc argv e) →
      handle_events wd argc argv [ReadResult.data (encodeAll rs ++ last)] buf2 msg2 =
        Result.ok { reports := reportsOf wd argc argv rs msg2 ++
                      [messageAfter wd argc argv rs msg2 ++ eventText wd argc argv e],
                    outcome := Outcome.returned, reads := 2, pending := [] } := by
  refine ⟨eventLoop_last_record wd argc argv hwd hargv buf len off fuel msg event hoff hev
    hover hname hfit, ?_⟩
  intro rs last buf2 msg2 e hwf hlast hev2 hov hname2 hfit2
  have hpos : 0 < last.length := List.length_pos.2 hlast
  have hne : encodeAll rs ++ last ≠ [] := by
    intro h
    exact hlast (List.append_eq_nil.1 h).2
  have hlen : (encodeAll rs ++ last).length = (encodeAll rs).length + last.length := by simp
  have hfuel : (encodeAll rs ++ last).length =
      rs.length + ((encodeAll rs ++ last).length - rs.length - 1 + 1) := by
    have := length_encodeAll_ge rs
    omega
  have hbuf : encodeAll rs ++ last ++ buf2.drop (encodeAll rs ++ last).length =
      [] ++ (encodeAll rs ++ (last ++ buf2.drop (encodeAll rs ++ last).length)) := by
    simp
  have hfitrs : fitsEventMessage (messageAfter wd argc argv rs msg2) :=
    fits_of_le hfit2 (by simp)
  have hpre := eventLoop_prefix wd argc argv hwd hargv (last ++ buf2.drop (encodeAll rs ++ last).length)
    (encodeAll rs ++ last).length ((encodeAll rs ++ last).length - rs.length - 1 + 1) rs hwf []
    msg2 (by simp) hfitrs
  rw [hbuf] at hev2
  have hlast2 := eventLoop_last_record wd argc argv hwd hargv
    ([] ++ (encodeAll rs ++ (last ++ buf2.drop (encodeAll rs ++ last).length)))
    (encodeAll rs ++ last).length (encodeAll rs).length
    ((encodeAll rs ++ last).length - rs.length - 1)
    (messageAfter wd argc argv rs msg2) e (by omega) hev2 (by omega) hname2 hfit2
  simp only [List.length_nil, Nat.zero_add] at hpre
  rw [hlast2, ← hfuel, ← hbuf, Result.bind_ok] at hpre
  have h := handle_events_data wd argc argv (encodeAll rs ++ last) [] buf2 msg2 _ _
    { reports := [], outcome := Outcome.returned, reads := 1, pending := [] } hne hpre rfl
  simpa using h

/-- The statement above on the header `overrunBatch`, alone in its batch and
after the record `recordA`; the name `evil` lies in `buf` past the valid
length. -/
theorem overrun_record_is_reported_and_ends_batch_witness :
    (2 ≤ ([0, 1] : List Int).length ∧ 2 ≤ ["prog".toList, "/tmp/a".toList].length ∧
      0 < 16 ∧
      eventAt (overrunBatch ++ evilBatch.drop 16) 0 =
        some { wd := 1, mask := IN_CLOSE_WRITE, cookie := 0, len := 16,
               name := some "evil".toList } ∧
      16 - 0 < EVENT_SIZE + 16 ∧
      fitsEventMessage ([] ++ eventText [0, 1] 2 ["prog".toList, "/tmp/a".toList]
        { wd := 1, mask := IN_CLOSE_WRITE, cookie := 0, len := 16,
          name := some "evil".toList })) ∧
    eventLoop [0, 1] 2 ["prog".toList, "/tmp/a".toList] (overrunBatch ++ evilBatch.drop 16)
        16 (15 + 1) 0 [] =
      Result.ok (["IN_CLOSE_WRITE: /tmp/a/evil [file]\n".toList],
                 "IN_CLOSE_WRITE: /tmp/a/evil [file]\n".toList) ∧
    handle_events [0, 1] 2 ["prog".toList, "/tmp/a".toList]
        [ReadResult.data (encodeAll [recordA] ++ overrunBatch)]
        (overrunBatch ++ evilBatch.drop 16 ++ evilBatch) [] =
      Result.ok { reports :=
                    ["IN_CLOSE_WRITE: /tmp/a/a.txt [file]\n".toList,
                     ("IN_CLOSE_WRITE: /tmp/a/a.txt [file]\n" ++
                       "IN_CLOSE_WRITE: /tmp/a/evil [file]\n").toList],
                  outcome := Outcome.returned, reads := 2, pending := [] } :=
  ⟨⟨by decide, by decide, by decide, by decide, by decide, by decide⟩,
   (overrun_record_is_reported_and_ends_batch [0, 1] 2 ["prog".toList, "/tmp/a".toList]
      (by decide) (by decide) (overrunBatch ++ evilBatch.drop 16) 16 0 15 []
      { wd := 1, mask := IN_CLOSE_WRITE, cookie := 0, len := 16, name := some "evil".toList }
      (by decide) (by decide) (by decide) (Or.inr (by decide)) (by decide)).1.trans
      (by decide),
   ((overrun_record_is_reported_and_ends_batch [0, 1] 2 ["prog".toList, "/tmp/a".toList]
      (by decide) (by decide) (overrunBatch ++ evilBatch.drop 16) 16 0 15 []
      { wd := 1, mask := IN_CLOSE_WRITE, cookie := 0, len := 16, name := some "evil".toList }
      (by decide) (by decide) (by decide) (Or.inr (by decide)) (by decide)).2
      [recordA] overrunBatch (overrunBatch ++ evilBatch.drop 16 ++ evilBatch) []
      { wd := 1, mask := IN_CLOSE_WRITE, cookie := 0, len := 16, name := some "evil".toList }
      (by decide) (by decide) (by decide) (by decide) (Or.inr (by decide))
      (by decide)).trans (by decide)⟩

/-- C7 (defect of the code): `eventMessage` is never cleared.  Two reads that
deliver the same record give two different messages, the second being the
first one twice; and within one batch the message of the second record starts
with the whole message of the first. -/
theorem report_carries_earlier_events :
    handle_events [0, 1] 2 ["prog".toList, "/tmp/watched".toList]
        [ReadResult.data (encodeAll [recordA]), ReadResult.data (encodeAll [recordA])] [] [] =
      Result.ok { reports :=
                    ["IN_CLOSE_WRITE: /tmp/watched/a.txt [file]\n".toList,
                     ("IN_CLOSE_WRITE: /tmp/watched/a.txt [file]\n" ++
                       "IN_CLOSE_WRITE: /tmp/watched/a.txt [file]\n").toList],
                  outcome := Outcome.returned, reads := 3, pending := [] } ∧
    handle_events [0, 1] 2 ["prog".toList, "/tmp/watched".toList]
        [ReadResult.data (encodeAll [recordA, recordB])] [] [] =
      Result.ok { reports :=
                    ["IN_CLOSE_WRITE: /tmp/watched/a.txt [file]\n".toList,
                     ("IN_CLOSE_WRITE: /tmp/watched/a.txt [file]\n" ++
                       "IN_CLOSE_WRITE: /tmp/watched/b.txt [file]\n").toList],
                  outcome := Outcome.returned, reads := 2, pending := [] } := by
  decide

/-- C9: if `argc < 2`, or `inotify_init1` fails, or `calloc` fails, or the
call of `inotify_add_watch` that `main` makes (for `argv[1]`) fails, then,
whatever the environment would answer afterwards, the process exits with
`EXIT_FAILURE` and its log holds no call of `poll`, of `system` and of
`handle_events`; when `argc < 2` the log is the usage message alone, so the
channel is not created and no watch is added. -/
theorem startup_error_aborts_before_dispatch (os : OS) (argv : List (List Char))
    (cycles : List Cycle)
    (herr : argv.length < 2 ∨ os.inotify_init1 = -1 ∨ os.calloc = false ∨
      os.inotify_add_watch os.inotify_init1 (argv.getD 1 []) IN_CLOSE_WRITE = -1) :
    ∃ log, main os argv cycles = Result.ok { log := log, status := some EXIT_FAILURE } ∧
      Call.poll ∉ log ∧ Call.system ∉ log ∧ (∀ reports, Call.handle_events reports ∉ log) ∧
      (argv.length < 2 → log = [Call.usage]) := by
  by_cases h1 : argv.length < 2
  · exact ⟨[Call.usage], by simp [main, startup, h1], by simp, by simp, by simp, fun _ => rfl⟩
  · by_cases h2 : os.inotify_init1 = -1
    · exact ⟨[Call.inotify_init1, Call.perror "inotify_init1"], by simp [main, startup, h1, h2],
        by simp, by simp, by simp, fun h => absurd h h1⟩
    · by_cases h3 : os.calloc = false
      · exact ⟨[Call.inotify_init1, Call.calloc argv.length, Call.perror "calloc"],
          by simp [main, startup, h1, h2, h3], by simp, by simp, by simp, fun h => absurd h h1⟩
      · have h4 : os.inotify_add_watch os.inotify_init1 (argv.getD 1 []) IN_CLOSE_WRITE = -1 := by
          rcases herr with h | h | h | h
          · exact absurd h h1
          · exact absurd h h2
          · exact absurd h h3
          · exact h
        refine ⟨[Call.inotify_init1, Call.calloc argv.length,
          Call.inotify_add_watch os.inotify_init1 (argv.getD 1 []) IN_CLOSE_WRITE,
          Call.cannotWatch (argv.getD 1 [])], ?_, ?_, ?_, ?_, fun h => absurd h h1⟩
        · rw [main, startup_add_watch_fails os argv h1 h2 h3 h4]
        · simp
        · simp
        · simp

/-- The statement above on a system where the path `/nonexistent` cannot be
watched. -/
theorem startup_error_aborts_before_dispatch_witness :
    (["prog".toList, "/nonexistent".toList].length < 2 ∨ osNoWatch.inotify_init1 = -1 ∨
      osNoWatch.calloc = false ∨
      osNoWatch.inotify_add_watch osNoWatch.inotify_init1
        (["prog".toList, "/nonexistent".toList].getD 1 []) IN_CLOSE_WRITE = -1) ∧
    ∃ log, main osNoWatch ["prog".toList, "/nonexistent".toList] [readyCycle] =
        Result.ok { log := log, status := some EXIT_FAILURE } ∧
      Call.poll ∉ log ∧ Call.system ∉ log ∧ (∀ reports, Call.handle_events reports ∉ log) ∧
      (["prog".toList, "/nonexistent".toList].length < 2 → log = [Call.usage]) :=
  ⟨by decide,
   startup_error_aborts_before_dispatch osNoWatch ["prog".toList, "/nonexistent".toList]
     [readyCycle] (by decide)⟩

end InotifyDaemon
